import Mathlib

/-!
Verification of the clustering core of the UL platform.

The development shallowly embeds the numeric engine of the repository:
the clustering helpers of `src/app/api/model/train/route.ts` (namespace
`TrainRoute`), the algorithms of `src/lib/advanced-clustering.ts`
(namespace `AdvClustering`) and the metrics of `src/lib/evaluation.ts`
(namespace `EvalLib`).

Embedding conventions, used uniformly below:

* JavaScript numbers are modelled by `ℚ`.  `Math.sqrt` is irrational, so
  every distance is carried as its square (`euclideanDistanceSq`), and
  every comparison `sqrt a <= r` of the source is translated to the
  equivalent rational comparison `0 <= r ∧ a <= r ^ 2` (`sqrt` is
  strictly monotone on the nonnegative reals and all compared values are
  nonnegative); `Math.pow(euclideanDistance(..), 2)` is the square sum
  itself.  Where a genuine distance value flows into further arithmetic
  (the silhouette averages), the square root is abstracted as a
  parameter `s : ℚ → ℚ`; the theorems assume only the properties of the
  real square root that the source relies on (nonnegativity of its
  values), so they hold in particular for the real `sqrt`.
* `Infinity` (the initial value of running minima) is modelled by
  `Option ℚ` with `none = +∞` (`oLt`, `oLe`, `oMax`).
* A JavaScript crash (property access on `undefined`) is modelled by
  `Option`-valued results, `none` being the thrown `TypeError`.
* `NaN` propagation inside `evaluation.ts`'s silhouette score is
  modelled by `Option ℚ` with `none = NaN`; `NaN` arises there exactly
  when `(b - a) / Math.max(a, b)` divides `0 / 0`.
* `while` loops that the source bounds only by a data-dependent measure
  are written with an explicit fuel parameter chosen large enough for
  the measure (documented at each definition); loops bounded by
  `maxIterations` recurse on that bound directly.
-/

/-- Square of `euclideanDistance` of both `route.ts` (lines 151-153) and
`advanced-clustering.ts` (lines 504-508): the sum of squared coordinate
differences.  The source returns `Math.sqrt` of this sum; all uses below
either square the distance again or only compare distances, so the
square root is eliminated by monotonicity (see the header comment). -/
def euclideanDistanceSq (a b : List ℚ) : ℚ :=
  (List.zipWith (fun x y => (x - y) ^ 2) a b).sum

/-- Concrete stand-in for `Math.sqrt` used in witnesses and
counterexamples: nonnegative everywhere (like the real square root) and
agreeing with the real square root at `0` and `1`, the only distance
values occurring in the concrete inputs below. -/
def qAbs (q : ℚ) : ℚ := |q|

/-- Translation of the source comparison
`euclideanDistance(a, b) <= eps`: equivalent to
`0 ≤ eps ∧ euclideanDistanceSq a b ≤ eps ^ 2`. -/
def withinEps (a b : List ℚ) (eps : ℚ) : Bool :=
  decide (0 ≤ eps ∧ euclideanDistanceSq a b ≤ eps ^ 2)

/-- `x < y` on `Option ℚ` with `none = +Infinity`
(`Infinity < Infinity` is false in JavaScript). -/
def oLt (x y : Option ℚ) : Bool :=
  match x, y with
  | none, _ => false
  | some _, none => true
  | some a, some b => decide (a < b)

/-- `x <= y` on `Option ℚ` with `none = +Infinity`
(`Infinity <= Infinity` is true in JavaScript). -/
def oLe (x y : Option ℚ) : Bool :=
  match x, y with
  | _, none => true
  | none, some _ => false
  | some a, some b => decide (a ≤ b)

/-- `Math.max` on `Option ℚ` with `none = +Infinity`. -/
def oMax (x y : Option ℚ) : Option ℚ :=
  match x, y with
  | none, _ => none
  | _, none => none
  | some a, some b => some (max a b)

/-- Running-minimum update `if (d < minDistance) minDistance = d` with
`minDistance` initialised to `Infinity`. -/
def updMin (acc : Option ℚ) (d : ℚ) : Option ℚ :=
  match acc with
  | none => some d
  | some m => if d < m then some d else some m

/-- `array.filter((_, idx) => p idx)`: keeps the elements whose position
(counted from `n`) satisfies `p`. -/
def filterIdx (p : Nat → Bool) : List α → Nat → List α
  | [], _ => []
  | a :: t, n => if p n then a :: filterIdx p t (n + 1) else filterIdx p t (n + 1)

/-- `[...new Set(labels)]`: the distinct values in first-occurrence
order, as JavaScript `Set` insertion order gives. -/
def uniqueLabels (ls : List ℤ) : List ℤ :=
  ls.foldl (fun acc x => if x ∈ acc then acc else acc ++ [x]) []

/-- Insert into a list sorted ascending by `key`, after any equal keys:
the insertion step of a stable ascending sort. -/
def insertSortedBy (key : α → ℚ) (x : α) : List α → List α
  | [] => [x]
  | y :: t => if key y ≤ key x then y :: insertSortedBy key x t else x :: y :: t

/-- Stable ascending sort by a rational key: the behaviour of JavaScript
`Array.prototype.sort` with a numeric comparator (stable per ES2019). -/
def sortByKey (key : α → ℚ) (l : List α) : List α :=
  l.foldl (fun acc x => insertSortedBy key x acc) []

namespace TrainRoute

/-- `getNeighbors` of `route.ts` (lines 168-176): indices of the points
other than `pointIndex` within distance `eps` of it. -/
def getNeighbors (data : List (List ℚ)) (pointIndex : Nat) (eps : ℚ) : List Nat :=
  (List.range data.length).filter
    (fun i => decide (i ≠ pointIndex) && withinEps (data.getD pointIndex []) (data.getD i []) eps)

/-- Centroid initialisation of `kMeans` in `route.ts` (lines 10-15): the
`i`-th centroid is a copy of the data row at the `i`-th random index
`Math.floor(Math.random() * n)`; the random stream is passed explicitly
as `draws`.  No already-chosen centroid influences any draw.  `none`
models an out-of-range row access, impossible for genuine draws. -/
def initCentroids (data : List (List ℚ)) (k : Nat) (draws : List Nat) :
    Option (List (List ℚ)) :=
  (List.range k).mapM (fun i => data.get? (draws.getD i 0))

/-- Assignment step of `kMeans` (lines 24-41): each point moves to its
nearest centroid, ties broken by the lowest centroid index (strict `<`
comparison during the scan in index order); returns the new labels and
whether any assignment changed. -/
def kmAssign (data : List (List ℚ)) (centroids : List (List ℚ))
    (clusters : List Nat) : List Nat × Bool :=
  let step := fun (rc : List ℚ × Nat) =>
    let best := centroids.foldl
      (fun (acc : Option ℚ × Nat × Nat) c =>
        let d := euclideanDistanceSq rc.1 c
        if oLt (some d) acc.1 then (some d, acc.2.2, acc.2.2 + 1)
        else (acc.1, acc.2.1, acc.2.2 + 1))
      (none, 0, 0)
    best.2.1
  let pairs := data.zip clusters
  let newClusters := pairs.map step
  (newClusters, decide (newClusters ≠ clusters))

/-- Centroid update step of `kMeans` (lines 43-51): every cluster with
at least one assigned point becomes the mean of its points; an empty
cluster keeps its previous centroid. -/
def kmUpdateCentroids (data : List (List ℚ)) (clusters : List Nat)
    (dims : Nat) (centroids : List (List ℚ)) : List (List ℚ) :=
  centroids.enum.map (fun (jc : Nat × List ℚ) =>
    let pts := ((data.zip clusters).filter (fun pc => pc.2 == jc.1)).map Prod.fst
    if 0 < pts.length then
      (List.range dims).map
        (fun d => (pts.map (fun p => p.getD d 0)).sum / pts.length)
    else jc.2)

/-- Main loop of `kMeans` (lines 17-54): repeat assignment and update
while some assignment changed and fewer than `maxIterations` iterations
ran; the recursion is on the remaining iteration budget, exactly the
source's bound. -/
def kmLoop (data : List (List ℚ)) (dims : Nat) :
    Nat → List Nat → List (List ℚ) → List Nat × List (List ℚ)
  | 0, clusters, centroids => (clusters, centroids)
  | fuel + 1, clusters, centroids =>
    let (clusters2, changed) := kmAssign data centroids clusters
    let centroids2 := kmUpdateCentroids data clusters2 dims centroids
    if changed then kmLoop data dims fuel clusters2 centroids2
    else (clusters2, centroids2)

/-- Squared-distance variant of `euclideanDistance(a, b)` where `b` may
be `undefined` (an out-of-range centroid access): with `a` empty the
source's `reduce` never touches `b` and returns `0`, otherwise reading
`b[i]` throws (`none`). -/
def euclidSqJS (a : List ℚ) (b : Option (List ℚ)) : Option ℚ :=
  match a, b with
  | [], _ => some 0
  | _, none => none
  | a, some b => some (euclideanDistanceSq a b)

/-- Inertia computation of `kMeans` (lines 56-60): the sum over all
points of the squared distance to the assigned centroid, in input
order; a `TypeError` while reading an undefined centroid aborts the sum
(`none`). -/
def kmInertia (cents : List (List ℚ)) : List (List ℚ × Nat) → Option ℚ
  | [] => some 0
  | rc :: rest =>
    match euclidSqJS rc.1 (cents.get? rc.2) with
    | none => none
    | some v => (kmInertia cents rest).map (fun t => v + t)

/-- Result record of `kMeans`. -/
structure KMeansResult where
  clusters : List Nat
  centroids : List (List ℚ)
  inertia : ℚ
  deriving DecidableEq, Repr

/-- `kMeans` of `route.ts` (lines 6-63).  The function performs no
validation: it immediately reads `data[0].length` (crashing on an empty
matrix, modelled by `none`), seeds `k` centroids from the explicit
random `draws`, runs the assignment/update loop at most `maxIterations`
times, and finally sums the inertia (crashing when a point's assigned
centroid does not exist, as happens for `k = 0`). -/
def kMeans (data : List (List ℚ)) (k : Nat) (maxIterations : Nat)
    (draws : List Nat) : Option KMeansResult :=
  match data.get? 0 with
  | none => none
  | some row0 =>
    let dims := row0.length
    match initCentroids data k draws with
    | none => none
    | some cents0 =>
      let init : List Nat := List.replicate data.length 0
      let (clusters, cents) := kmLoop data dims maxIterations init cents0
      match kmInertia cents (data.zip clusters) with
      | none => none
      | some inertia => some ⟨clusters, cents, inertia⟩

end TrainRoute

namespace TrainRoute

/-- `clusterDistance` of `route.ts` (lines 155-166), squared: single
linkage, the minimum over all cross pairs of the (squared) point
distance, `none` (`Infinity`) when either cluster is empty. -/
def clusterDistanceSq (data : List (List ℚ)) (c1 c2 : List Nat) : Option ℚ :=
  c1.foldl
    (fun acc i =>
      c2.foldl
        (fun acc2 j => updMin acc2 (euclideanDistanceSq (data.getD i []) (data.getD j [])))
        acc)
    none

/-- The pairs `(i, j)` with `i < j < len` in the row-major order of the
nested scan of `hierarchicalClustering` (lines 76-84). -/
def pairList (len : Nat) : List (Nat × Nat) :=
  (List.range len).flatMap
    (fun i => (List.range' (i + 1) (len - (i + 1))).map (fun j => (i, j)))

/-- Closest-pair scan of `hierarchicalClustering` (lines 71-84): fold of
the strict-`<` minimum update over all pairs, starting from
`mergeIndices = [0, 1]` and `minDistance = Infinity`. -/
def scanPairs (data : List (List ℚ)) (cs : List (List Nat)) :
    Nat × Nat × Option ℚ :=
  (pairList cs.length).foldl
    (fun st p =>
      match clusterDistanceSq data (cs.getD p.1 []) (cs.getD p.2 []) with
      | none => st
      | some d =>
        match st.2.2 with
        | none => (p.1, p.2, some d)
        | some m => if d < m then (p.1, p.2, some d) else st)
    (0, 1, none)

/-- `clusters.filter((_, i) => i !== a && i !== b)` (line 90). -/
def removeTwo (cs : List α) (a b : Nat) : List α :=
  filterIdx (fun idx => decide (idx ≠ a ∧ idx ≠ b)) cs 0

/-- One linkage record entry `[clusterA, clusterB, distance, size]`
(line 88); `dist` carries the squared merge distance (`none` =
`Infinity`). -/
structure LinkEntry where
  a : Nat
  b : Nat
  dist : Option ℚ
  size : Nat
  deriving DecidableEq, Repr

/-- Merge loop of `hierarchicalClustering` (lines 71-92): while more
than `k` clusters remain, merge the closest pair and append a linkage
entry.  Each successful iteration removes two clusters and adds one;
the fuel is the initial cluster count, enough for every terminating
run.  `none` models the `TypeError` thrown when the scan's default pair
`[0, 1]` is out of range (fewer than two clusters and `k = 0`). -/
def hierLoop (data : List (List ℚ)) (k : Nat) :
    Nat → List (List Nat) → List LinkEntry →
    Option (List (List Nat) × List LinkEntry)
  | 0, cs, lk => if cs.length ≤ k then some (cs, lk) else none
  | fuel + 1, cs, lk =>
    if cs.length ≤ k then some (cs, lk)
    else
      let best := scanPairs data cs
      match cs.get? best.1, cs.get? best.2.1 with
      | some ca, some cb =>
        let merged := ca ++ cb
        hierLoop data k fuel (removeTwo cs best.1 best.2.1 ++ [merged])
          (lk ++ [⟨best.1, best.2.1, best.2.2, merged.length⟩])
      | _, _ => none

/-- Label assignment of `hierarchicalClustering` (lines 94-100): an
array of `n` zeros in which every member of the `c`-th final cluster is
overwritten with `c`. -/
def labelsFromClusters (n : Nat) (cs : List (List Nat)) : List Nat :=
  cs.enum.foldl
    (fun lab cc => cc.2.foldl (fun l p => l.set p cc.1) lab)
    (List.replicate n 0)

/-- `hierarchicalClustering` of `route.ts` (lines 66-103): start from
singleton clusters, run the merge loop down to `k` clusters, then read
labels off the final partition. -/
def hierarchicalClustering (data : List (List ℚ)) (k : Nat) :
    Option (List Nat × List LinkEntry) :=
  let n := data.length
  let initial := (List.range n).map (fun i => [i])
  (hierLoop data k n initial []).map
    (fun r => (labelsFromClusters n r.1, r.2))

end TrainRoute

/-- `a(i)` of the silhouette computation, identical in `route.ts`
(lines 186-190) and `evaluation.ts` (lines 31-35): the mean distance
from point `i` to the other points of its own cluster, `0` if there are
none.  `s` abstracts `Math.sqrt` (see the header). -/
def silhouetteA (s : ℚ → ℚ) (data : List (List ℚ)) (labels : List ℤ)
    (i : Nat) : ℚ :=
  let ci := labels.getD i 0
  let pts := filterIdx (fun j => decide (labels.getD j 0 = ci ∧ j ≠ i)) data 0
  if 0 < pts.length then
    (pts.map (fun p => s (euclideanDistanceSq (data.getD i []) p))).sum / pts.length
  else 0

/-- `b(i)` of the silhouette computation, identical in `route.ts`
(lines 192-202) and `evaluation.ts` (lines 37-48): the minimum over the
other distinct labels of the mean distance from point `i` to that
cluster's points; labels with no points leave the minimum unchanged;
`none` is the initial `Infinity`. -/
def silhouetteB (s : ℚ → ℚ) (data : List (List ℚ)) (labels : List ℤ)
    (i : Nat) : Option ℚ :=
  let ci := labels.getD i 0
  ((uniqueLabels labels).filter (fun c => decide (c ≠ ci))).foldl
    (fun b c =>
      let pts := filterIdx (fun j => decide (labels.getD j 0 = c)) data 0
      if 0 < pts.length then
        let avg := (pts.map (fun p => s (euclideanDistanceSq (data.getD i []) p))).sum / pts.length
        match b with
        | none => some avg
        | some m => some (min m avg)
      else b)
    none

namespace TrainRoute

/-- Per-point silhouette score of `route.ts` (lines 204-206):
`(b - a) / Math.max(a, b)` with the `isNaN` guard mapping the two `NaN`
cases (`b` still `Infinity`, or `0 / 0` when `max(a, b) = 0`) to `0`. -/
def silhouettePoint (s : ℚ → ℚ) (data : List (List ℚ)) (labels : List ℤ)
    (i : Nat) : ℚ :=
  match silhouetteB s data labels i with
  | none => 0
  | some bv =>
    let a := silhouetteA s data labels i
    if max a bv = 0 then 0 else (bv - a) / max a bv

/-- `calculateSilhouetteScore` of `route.ts` (lines 179-210): the mean
of the per-point scores over all points. -/
def calculateSilhouetteScore (s : ℚ → ℚ) (data : List (List ℚ))
    (labels : List ℤ) : ℚ :=
  ((List.range data.length).map (silhouettePoint s data labels)).sum / data.length

end TrainRoute

namespace EvalLib

/-- `EvaluationResult` of `evaluation.ts` (lines 3-8); `value` is
`Option ℚ` because the silhouette value can be `NaN` (`none`). -/
structure EvaluationResult where
  metric : String
  value : Option ℚ
  description : String
  interpretation : String
  deriving DecidableEq, Repr

/-- The sentinel returned by `calculateSilhouetteScore` of
`evaluation.ts` (lines 17-24) when fewer than two distinct labels are
present. -/
def silhouetteSentinel : EvaluationResult :=
  { metric := "silhouette_score"
    value := some 0
    description := "Silhouette score for single cluster"
    interpretation := "Cannot calculate silhouette score with only one cluster" }

/-- Per-point silhouette score of `evaluation.ts` (line 51): only the
`b === Infinity` case is guarded (to `0`); when `max(a, b) = 0` the
division `0 / 0` yields `NaN` (`none`). -/
def silhouettePoint (s : ℚ → ℚ) (data : List (List ℚ)) (labels : List ℤ)
    (i : Nat) : Option ℚ :=
  match silhouetteB s data labels i with
  | none => some 0
  | some bv =>
    let a := silhouetteA s data labels i
    if max a bv = 0 then none else some ((bv - a) / max a bv)

/-- `totalScore` of `evaluation.ts` (lines 26-53): the running sum of
the per-point scores; one `NaN` contribution makes the whole sum `NaN`
(`none`). -/
def silhouetteTotal (s : ℚ → ℚ) (data : List (List ℚ)) (labels : List ℤ) :
    Option ℚ :=
  (List.range data.length).foldl
    (fun acc i =>
      match acc, silhouettePoint s data labels i with
      | some t, some v => some (t + v)
      | _, _ => none)
    (some 0)

/-- `Math.round(q * 10000) / 10000` (line 59); JavaScript rounds half
toward positive infinity. -/
def round4 (q : ℚ) : ℚ := ((⌊q * 10000 + 1 / 2⌋ : ℤ) : ℚ) / 10000

/-- The qualitative bucket of `evaluation.ts` (lines 61-63); every
comparison against `NaN` is false, so a `NaN` score falls through to
the last bucket. -/
def silhouetteInterp (score : Option ℚ) : String :=
  match score with
  | none => "Poor clustering"
  | some sc =>
    if 7 / 10 < sc then "Excellent clustering"
    else if 1 / 2 < sc then "Good clustering"
    else if 1 / 4 < sc then "Weak clustering"
    else "Poor clustering"

/-- `calculateSilhouetteScore` of `evaluation.ts` (lines 13-65): the
sentinel below two distinct labels, otherwise the rounded mean
per-point score with its interpretation.  The division by `n` is `NaN`
when `n = 0` (only reachable with an empty matrix). -/
def calculateSilhouetteScore (s : ℚ → ℚ) (data : List (List ℚ))
    (labels : List ℤ) : EvaluationResult :=
  if (uniqueLabels labels).length ≤ 1 then silhouetteSentinel
  else
    let score : Option ℚ :=
      if data.length = 0 then none
      else (silhouetteTotal s data labels).map (fun t => t / data.length)
    { metric := "silhouette_score"
      value := score.map round4
      description := "Average silhouette coefficient across all data points"
      interpretation := silhouetteInterp score }

end EvalLib

namespace AdvClustering

/-- `regionQuery` of `advanced-clustering.ts` (lines 45-56): indices of
all points within distance `eps` of the point at `pointIdx` — with no
exclusion of the point itself. -/
def regionQuery (data : List (List ℚ)) (pointIdx : Nat) (eps : ℚ) : List Nat :=
  (List.range data.length).filter
    (fun i => withinEps (data.getD pointIdx []) (data.getD i []) eps)

/-- One exponent term of `multivariateGaussian`
(`advanced-clustering.ts` line 519): `(x - m)^2 / c`.  With `c = 0`
JavaScript produces `Infinity` or `NaN`; both are non-finite, modelled
by `none`. -/
def gaussExponentTerm (x m c : ℚ) : Option ℚ :=
  if c = 0 then none else some ((x - m) ^ 2 / c)

/-- The `exponent` accumulator of `multivariateGaussian` (lines 514-520):
the sum of `(x[i] - mean[i])^2 / covariance[i][i]` over the dimensions,
`none` once any term is non-finite. -/
def multivariateGaussianExponent (x mean : List ℚ) (covariance : List (List ℚ)) :
    Option ℚ :=
  (List.range x.length).foldl
    (fun acc i =>
      acc.bind (fun t =>
        (gaussExponentTerm (x.getD i 0) (mean.getD i 0)
          ((covariance.getD i []).getD i 0)).map (fun v => t + v)))
    (some 0)

/-- The `det` accumulator of `multivariateGaussian` (lines 514-518): the
product of the diagonal covariance entries. -/
def multivariateGaussianDet (x : List ℚ) (covariance : List (List ℚ)) : ℚ :=
  ((List.range x.length).map (fun i => (covariance.getD i []).getD i 0)).prod

/-- Modelled from the spec's words, for comparison with the source:
the exponent of `gaussianDensity` with the claimed degenerate-variance
guard — a variance entry that is not strictly positive is treated as
`1`, so every term is finite. -/
def multivariateGaussianExponentGuard (x mean : List ℚ)
    (covariance : List (List ℚ)) : ℚ :=
  ((List.range x.length).map
    (fun i =>
      let c := (covariance.getD i []).getD i 0
      (x.getD i 0 - mean.getD i 0) ^ 2 / (if 0 < c then c else 1))).sum

/-- The unnormalised responsibility row of the E-step of
`gaussianMixture` (lines 241-248): `weights[j] * gaussian(x, mean_j,
cov_j)`, with the density kernel abstracted as `g`. -/
def gmmRawRow (g : List ℚ → List ℚ → List (List ℚ) → ℚ) (weights : List ℚ)
    (means : List (List ℚ)) (covs : List (List (List ℚ))) (x : List ℚ) :
    List ℚ :=
  List.zipWith (fun w mc => w * g x mc.1 mc.2) weights (means.zip covs)

/-- The normalised responsibility row of the E-step (lines 250-253):
each raw entry divided by the row sum when that sum is positive, else
the uniform value `1 / k`. -/
def gmmEStepRow (g : List ℚ → List ℚ → List (List ℚ) → ℚ) (k : Nat)
    (weights : List ℚ) (means : List (List ℚ)) (covs : List (List (List ℚ)))
    (x : List ℚ) : List ℚ :=
  let raw := gmmRawRow g weights means covs x
  let sum := raw.sum
  raw.map (fun r => if 0 < sum then r / sum else 1 / k)

/-- The M-step update for one component of `gaussianMixture`
(lines 259-287), given the component's responsibility column `resps`
(one entry per point): new weight `totalResp / n`; new mean coordinate
`Σ resp_i * x_i[l] / totalResp` when `totalResp > 0`, else `0`; new
covariance diagonal entry `Σ resp_i * (x_i[l] - mean[l])^2 / totalResp`
when `totalResp > 0`, else `1` (the covariance uses the just-updated
mean, as the source overwrites `means[j]` first). -/
def gmmMStepComponent (d : Nat) (data : List (List ℚ)) (resps : List ℚ) :
    ℚ × List ℚ × List ℚ :=
  let totalResp := resps.sum
  let weight := totalResp / data.length
  let mean := (List.range d).map
    (fun l =>
      let sum := (List.zipWith (fun r x => r * x.getD l 0) resps data).sum
      if 0 < totalResp then sum / totalResp else 0)
  let cov := (List.range d).map
    (fun l =>
      let sum := (List.zipWith (fun r x => r * (x.getD l 0 - mean.getD l 0) ^ 2) resps data).sum
      if 0 < totalResp then sum / totalResp else 1)
  (weight, mean, cov)

end AdvClustering

namespace AdvClustering

/-- Core distance of `optics` (lines 390-403), squared: the
`(minPts - 1)`-th smallest distance to another point when it exists.
For `minPts < 2` the source reads `distances[minPts - 2]`, an
out-of-range access giving `undefined`, which every later `<=`
comparison treats as false — the same behaviour as `Infinity`, so both
cases are `none`. -/
def coreDistanceSq (data : List (List ℚ)) (minPts : Nat) (i : Nat) : Option ℚ :=
  let ds := sortByKey id
    (((List.range data.length).filter (fun j => decide (j ≠ i))).map
      (fun j => euclideanDistanceSq (data.getD i []) (data.getD j [])))
  if 2 ≤ minPts ∧ minPts - 1 ≤ ds.length then some (ds.getD (minPts - 2) 0)
  else none

/-- Traversal state of `optics`: the `processed` flags, the squared
reachability distances (`none = Infinity`) and the visit order list. -/
structure OpticsState where
  processed : List Bool
  reach : List (Option ℚ)
  ordered : List Nat
  deriving Repr

/-- `update` of `optics` (lines 455-476): for every unprocessed point
within `maxEps` of the centre, improve its reachability distance to
`max(coreDistance(centre), dist)` and push a seed entry on strict
improvement.  Pushed reachabilities are always finite, so seeds carry
plain rationals. -/
def opticsUpdate (data : List (List ℚ)) (cores : List (Option ℚ))
    (maxEps : Option ℚ) (center : Nat) (st : OpticsState)
    (seeds : List (Nat × ℚ)) : OpticsState × List (Nat × ℚ) :=
  (List.range data.length).foldl
    (fun acc i =>
      if acc.1.processed.getD i true then acc
      else
        let dist := euclideanDistanceSq (data.getD center []) (data.getD i [])
        if oLe (some dist) maxEps then
          match oMax (cores.getD center none) (some dist) with
          | none => acc
          | some nr =>
            if oLt (some nr) (acc.1.reach.getD i none) then
              ({ acc.1 with reach := acc.1.reach.set i (some nr) },
                acc.2 ++ [(i, nr)])
            else acc
        else acc)
    (st, seeds)

/-- Seed-queue loop of `processPoint` (lines 440-451): sort the seeds by
reachability, pop the first, mark it processed and append it to the
visit order — with no check whether it was already processed — then
expand from it if it is a core point.  Every push strictly decreases a
point's finite reachability, so the queue sees at most `n^2` pops; the
fuel `(n + 1)^2` therefore never runs out on a terminating source
run. -/
def opticsSeedsLoop (data : List (List ℚ)) (cores : List (Option ℚ))
    (maxEps : Option ℚ) :
    Nat → OpticsState → List (Nat × ℚ) → OpticsState
  | 0, st, _ => st
  | fuel + 1, st, seeds =>
    match sortByKey Prod.snd seeds with
    | [] => st
    | cur :: rest =>
      let st1 : OpticsState :=
        { st with processed := st.processed.set cur.1 true
                  ordered := st.ordered ++ [cur.1] }
      if oLe (cores.getD cur.1 none) maxEps then
        let (st2, seeds2) := opticsUpdate data cores maxEps cur.1 st1 rest
        opticsSeedsLoop data cores maxEps fuel st2 seeds2
      else opticsSeedsLoop data cores maxEps fuel st1 rest

/-- `processPoint` of `optics` (lines 422-453): mark the start point
processed and visited, then, if it is a core point, expand its seed
queue. -/
def opticsProcessPoint (data : List (List ℚ)) (cores : List (Option ℚ))
    (maxEps : Option ℚ) (i : Nat) (st : OpticsState) : OpticsState :=
  let st1 : OpticsState :=
    { st with processed := st.processed.set i true
              ordered := st.ordered ++ [i] }
  if oLe (cores.getD i none) maxEps then
    let (st2, seeds) := opticsUpdate data cores maxEps i st1 []
    opticsSeedsLoop data cores maxEps ((data.length + 1) * (data.length + 1)) st2 seeds
  else st1

/-- Inner `while` of `extractClusters` (lines 489-494): from position
`j`, label the run of visited points with reachability at most the
threshold; returns the updated labels and the first position past the
run.  The position grows by one per step, so fuel `len + 1` always
suffices. -/
def opticsExtractRun (reach : List (Option ℚ)) (ordered : List Nat)
    (cid : ℤ) : Nat → Nat → List ℤ → List ℤ × Nat
  | 0, j, labels => (labels, j)
  | fuel + 1, j, labels =>
    if j < ordered.length ∧ oLe (reach.getD (ordered.getD j 0) none) (some (1 / 4)) then
      opticsExtractRun reach ordered cid fuel (j + 1)
        (labels.set (ordered.getD j 0) cid)
    else (labels, j)

/-- Outer loop of `extractClusters` (lines 478-501) with the source's
fixed threshold `0.5` (squared: `1/4`): scan the visit order; a
low-reachability point that is still unlabelled starts a new cluster
run.  The scan position grows by at least one per step, so fuel
`len + 1` suffices. -/
def opticsExtractGo (reach : List (Option ℚ)) (ordered : List Nat) :
    Nat → Nat → ℤ → List ℤ → List ℤ
  | 0, _, _, labels => labels
  | fuel + 1, i, cid, labels =>
    if i < ordered.length then
      if oLe (reach.getD (ordered.getD i 0) none) (some (1 / 4)) then
        if labels.getD (ordered.getD i 0) (-1) = -1 then
          let (labels2, j) :=
            opticsExtractRun reach ordered cid (ordered.length + 1) i labels
          opticsExtractGo reach ordered fuel j (cid + 1) labels2
        else opticsExtractGo reach ordered fuel (i + 1) cid labels
      else opticsExtractGo reach ordered fuel (i + 1) cid labels
    else labels

/-- `extractClusters` of `optics` (lines 478-501): the label array has
one slot per **visit-order entry** (`new Array(orderedPoints.length)`),
initialised to `-1`. -/
def extractClusters (reach : List (Option ℚ)) (ordered : List Nat) : List ℤ :=
  opticsExtractGo reach ordered (ordered.length + 1) 0 0
    (List.replicate ordered.length (-1))

/-- `optics` of `advanced-clustering.ts` (lines 383-420): compute core
distances, process every point not yet processed in input order, then
extract labels from the reachability values along the visit order.
Only the returned labels are modelled. -/
def optics (data : List (List ℚ)) (minPts : Nat) (maxEps : Option ℚ) :
    List ℤ :=
  let n := data.length
  let cores := (List.range n).map (coreDistanceSq data minPts)
  let init : OpticsState := ⟨List.replicate n false, List.replicate n none, []⟩
  let fin := (List.range n).foldl
    (fun st i =>
      if st.processed.getD i true then st
      else opticsProcessPoint data cores maxEps i st)
    init
  extractClusters fin.reach fin.ordered

end AdvClustering

/-! Helper lemmas. -/

theorem foldl_preserve {α β : Type _} (P : β → Prop) (f : β → α → β)
    (l : List α) (init : β) (h0 : P init)
    (hstep : ∀ b a, a ∈ l → P b → P (f b a)) : P (l.foldl f init) := by
  induction l generalizing init with
  | nil => exact h0
  | cons a t ih =>
    exact ih (f init a) (hstep init a (List.mem_cons_self a t) h0)
      (fun b x hx hb => hstep b x (List.mem_cons_of_mem a hx) hb)

theorem list_sum_le_length (l : List ℚ) (h : ∀ x ∈ l, x ≤ 1) :
    l.sum ≤ l.length := by
  induction l with
  | nil => simp
  | cons a t ih =>
    simp only [List.sum_cons, List.length_cons]
    push_cast
    have ha := h a (List.mem_cons_self a t)
    have ht := ih (fun x hx => h x (List.mem_cons_of_mem a hx))
    linarith

theorem neg_length_le_list_sum (l : List ℚ) (h : ∀ x ∈ l, -1 ≤ x) :
    -(l.length : ℚ) ≤ l.sum := by
  induction l with
  | nil => simp
  | cons a t ih =>
    simp only [List.sum_cons, List.length_cons]
    push_cast
    have ha := h a (List.mem_cons_self a t)
    have ht := ih (fun x hx => h x (List.mem_cons_of_mem a hx))
    linarith

theorem filterIdx_length {α : Type _} (p : Nat → Bool) (l : List α) (n : Nat) :
    (filterIdx p l n).length = ((List.range' n l.length).filter p).length := by
  induction l generalizing n with
  | nil => simp [filterIdx]
  | cons a t ih =>
    simp only [filterIdx, List.length_cons, List.range'_succ, List.filter_cons]
    cases hp : p n <;> simp [hp, ih (n + 1)]

theorem filter_ne_one_length (l : List Nat) (j : Nat) (hnd : l.Nodup)
    (hj : j ∈ l) :
    (l.filter (fun m => decide (m ≠ j))).length = l.length - 1 := by
  induction l with
  | nil => cases hj
  | cons a t ih =>
    have hnda := (List.nodup_cons.1 hnd).1
    have hndt := (List.nodup_cons.1 hnd).2
    by_cases haj : a = j
    · subst haj
      have heq : t.filter (fun m => decide (m ≠ a)) = t :=
        List.filter_eq_self.2 (fun x hx => by
          simp only [decide_eq_true_eq]
          exact fun hxa => hnda (hxa ▸ hx))
      rw [List.filter_cons, if_neg (by simp), heq]
      simp
    · have hjt : j ∈ t := by
        rcases List.mem_cons.1 hj with h | h
        · exact absurd h.symm haj
        · exact h
      have ht := ih hndt hjt
      have hlen : 1 ≤ t.length := List.length_pos.2 (List.ne_nil_of_mem hjt)
      rw [List.filter_cons, if_pos (by simpa using haj)]
      simp only [List.length_cons, ht]
      omega

theorem filter_ne_two_length (l : List Nat) (i j : Nat) (hnd : l.Nodup)
    (hi : i ∈ l) (hj : j ∈ l) (hij : i ≠ j) :
    (l.filter (fun m => decide (m ≠ i ∧ m ≠ j))).length = l.length - 2 := by
  induction l with
  | nil => cases hi
  | cons a t ih =>
    have hnda := (List.nodup_cons.1 hnd).1
    have hndt := (List.nodup_cons.1 hnd).2
    by_cases hai : a = i
    · subst hai
      have hjt : j ∈ t := by
        rcases List.mem_cons.1 hj with h | h
        · exact absurd h.symm hij
        · exact h
      have heq : t.filter (fun m => decide (m ≠ a ∧ m ≠ j)) =
          t.filter (fun m => decide (m ≠ j)) := by
        apply List.filter_congr
        intro x hx
        have hxa : x ≠ a := fun hh => hnda (hh ▸ hx)
        simp [hxa]
      have hlen : 1 ≤ t.length := List.length_pos.2 (List.ne_nil_of_mem hjt)
      rw [List.filter_cons, if_neg (by simp), heq,
        filter_ne_one_length t j hndt hjt]
      simp only [List.length_cons]
      omega
    · by_cases haj : a = j
      · subst haj
        have hit : i ∈ t := by
          rcases List.mem_cons.1 hi with h | h
          · exact absurd h hij
          · exact h
        have heq : t.filter (fun m => decide (m ≠ i ∧ m ≠ a)) =
            t.filter (fun m => decide (m ≠ i)) := by
          apply List.filter_congr
          intro x hx
          have hxa : x ≠ a := fun hh => hnda (hh ▸ hx)
          simp [hxa]
        have hlen : 1 ≤ t.length := List.length_pos.2 (List.ne_nil_of_mem hit)
        rw [List.filter_cons, if_neg (by simp), heq,
          filter_ne_one_length t i hndt hit]
        simp only [List.length_cons]
        omega
      · have hit : i ∈ t := by
          rcases List.mem_cons.1 hi with h | h
          · exact absurd h.symm hai
          · exact h
        have hjt : j ∈ t := by
          rcases List.mem_cons.1 hj with h | h
          · exact absurd h.symm haj
          · exact h
        have ht := ih hndt hit hjt
        have hlen : 2 ≤ t.length := by
          have h1 : j ∈ t.erase i := (List.mem_erase_of_ne (Ne.symm hij)).2 hjt
          have h2 : 1 ≤ (t.erase i).length :=
            List.length_pos.2 (List.ne_nil_of_mem h1)
          have h3 : (t.erase i).length = t.length - 1 :=
            List.length_erase_of_mem hit
          omega
        rw [List.filter_cons, if_pos (by simp [hai, haj])]
        simp only [List.length_cons, ht]
        omega

theorem removeTwo_length {α : Type _} (cs : List α) (i j : Nat) (hij : i ≠ j)
    (hi : i < cs.length) (hj : j < cs.length) :
    (TrainRoute.removeTwo cs i j).length = cs.length - 2 := by
  unfold TrainRoute.removeTwo
  rw [filterIdx_length]
  rw [show List.range' 0 cs.length = List.range cs.length from
    (List.range_eq_range' cs.length).symm]
  have := filter_ne_two_length (List.range cs.length) i j (List.nodup_range _)
    (List.mem_range.2 hi) (List.mem_range.2 hj) hij
  simpa using this

theorem mem_pairList {len : Nat} {p : Nat × Nat} (hp : p ∈ TrainRoute.pairList len) :
    p.1 < p.2 ∧ p.2 < len := by
  unfold TrainRoute.pairList at hp
  rw [List.mem_flatMap] at hp
  obtain ⟨i, hi, hpi⟩ := hp
  rw [List.mem_map] at hpi
  obtain ⟨j, hj, rfl⟩ := hpi
  rw [List.mem_range] at hi
  rw [List.mem_range'_1] at hj
  exact ⟨by omega, by omega⟩

theorem scanPairs_bounds (data : List (List ℚ)) (cs : List (List Nat))
    (h2 : 2 ≤ cs.length) :
    (TrainRoute.scanPairs data cs).1 < (TrainRoute.scanPairs data cs).2.1 ∧
    (TrainRoute.scanPairs data cs).2.1 < cs.length := by
  unfold TrainRoute.scanPairs
  apply foldl_preserve
    (fun (st : Nat × Nat × Option ℚ) => st.1 < st.2.1 ∧ st.2.1 < cs.length)
  · exact ⟨Nat.zero_lt_one, h2⟩
  · intro st p hp hst
    have hpb := mem_pairList hp
    rcases hcd : TrainRoute.clusterDistanceSq data (cs.getD p.1 []) (cs.getD p.2 [])
      with _ | d
    · simpa [hcd] using hst
    · rcases hm : st.2.2 with _ | m
      · simpa [hcd, hm] using hpb
      · by_cases hdm : d < m
        · simpa [hcd, hm, hdm] using hpb
        · simpa [hcd, hm, hdm] using hst

theorem hierLoop_spec (data : List (List ℚ)) (k : Nat) (hk : 1 ≤ k) :
    ∀ (fuel : Nat) (cs : List (List Nat)) (lk : List TrainRoute.LinkEntry),
    k ≤ cs.length → cs.length - k ≤ fuel →
    ∃ fc flk, TrainRoute.hierLoop data k fuel cs lk = some (fc, flk) ∧
      flk.length = lk.length + (cs.length - k) ∧ fc.length = k := by
  intro fuel
  induction fuel with
  | zero =>
    intro cs lk hkc hf
    have hceq : cs.length = k := by omega
    exact ⟨cs, lk, by simp [TrainRoute.hierLoop, hceq], by omega, hceq⟩
  | succ fuel ih =>
    intro cs lk hkc hf
    by_cases hstop : cs.length ≤ k
    · have hceq : cs.length = k := le_antisymm hstop hkc
      exact ⟨cs, lk, by simp [TrainRoute.hierLoop, hstop], by omega, hceq⟩
    · push_neg at hstop
      have h2 : 2 ≤ cs.length := by omega
      obtain ⟨hlt, hub⟩ := scanPairs_bounds data cs h2
      have hga : (TrainRoute.scanPairs data cs).1 < cs.length := lt_trans hlt hub
      have hca := List.get?_eq_get (l := cs) hga
      have hcb := List.get?_eq_get (l := cs) hub
      have hnewlen :
          (TrainRoute.removeTwo cs (TrainRoute.scanPairs data cs).1
            (TrainRoute.scanPairs data cs).2.1 ++
            [cs.get ⟨(TrainRoute.scanPairs data cs).1, hga⟩ ++
             cs.get ⟨(TrainRoute.scanPairs data cs).2.1, hub⟩]).length =
          cs.length - 1 := by
        rw [List.length_append,
          removeTwo_length cs _ _ (Nat.ne_of_lt hlt) hga hub]
        simp
        omega
      obtain ⟨fc, flk, heq, hlen, hfc⟩ := ih
        (TrainRoute.removeTwo cs (TrainRoute.scanPairs data cs).1
          (TrainRoute.scanPairs data cs).2.1 ++
          [cs.get ⟨(TrainRoute.scanPairs data cs).1, hga⟩ ++
           cs.get ⟨(TrainRoute.scanPairs data cs).2.1, hub⟩])
        (lk ++ [⟨(TrainRoute.scanPairs data cs).1,
          (TrainRoute.scanPairs data cs).2.1,
          (TrainRoute.scanPairs data cs).2.2,
          (cs.get ⟨(TrainRoute.scanPairs data cs).1, hga⟩ ++
           cs.get ⟨(TrainRoute.scanPairs data cs).2.1, hub⟩).length⟩])
        (by rw [hnewlen]; omega) (by rw [hnewlen]; omega)
      refine ⟨fc, flk, ?_, ?_, hfc⟩
      · rw [show TrainRoute.hierLoop data k (fuel + 1) cs lk =
          TrainRoute.hierLoop data k fuel _ _ from ?_]
        · exact heq
        · simp only [TrainRoute.hierLoop]
          rw [if_neg (not_le.2 hstop), hca, hcb]
      · rw [hnewlen] at hlen
        simp only [List.length_append, List.length_cons, List.length_nil] at hlen
        omega

theorem silhouetteA_nonneg (s : ℚ → ℚ) (data : List (List ℚ))
    (labels : List ℤ) (i : Nat) (hs : ∀ q, 0 ≤ s q) :
    0 ≤ silhouetteA s data labels i := by
  unfold silhouetteA
  dsimp only
  split
  · apply div_nonneg
    · apply List.sum_nonneg
      intro x hx
      rw [List.mem_map] at hx
      obtain ⟨p, _, rfl⟩ := hx
      exact hs _
    · exact Nat.cast_nonneg _
  · exact le_refl 0

theorem silhouetteB_nonneg (s : ℚ → ℚ) (data : List (List ℚ))
    (labels : List ℤ) (i : Nat) (hs : ∀ q, 0 ≤ s q) (b : ℚ)
    (hb : silhouetteB s data labels i = some b) : 0 ≤ b := by
  unfold silhouetteB at hb
  revert hb
  refine foldl_preserve (fun (o : Option ℚ) => ∀ m, o = some m → 0 ≤ m)
    _ _ _ (by intro m hm; cases hm) ?_ b
  intro o c _ ho
  dsimp only
  split
  · rcases o with _ | m
    · intro m hm
      rw [Option.some_inj] at hm
      subst hm
      apply div_nonneg
      · apply List.sum_nonneg
        intro x hx
        rw [List.mem_map] at hx
        obtain ⟨p, _, rfl⟩ := hx
        exact hs _
      · exact Nat.cast_nonneg _
    · intro m2 hm2
      rw [Option.some_inj] at hm2
      subst hm2
      refine le_min (ho m rfl) ?_
      apply div_nonneg
      · apply List.sum_nonneg
        intro x hx
        rw [List.mem_map] at hx
        obtain ⟨p, _, rfl⟩ := hx
        exact hs _
      · exact Nat.cast_nonneg _
  · exact ho

theorem silhouettePoint_bounds (s : ℚ → ℚ) (data : List (List ℚ))
    (labels : List ℤ) (i : Nat) (hs : ∀ q, 0 ≤ s q) :
    -1 ≤ TrainRoute.silhouettePoint s data labels i ∧
    TrainRoute.silhouettePoint s data labels i ≤ 1 := by
  unfold TrainRoute.silhouettePoint
  rcases hb : silhouetteB s data labels i with _ | bv
  · exact ⟨by norm_num, by norm_num⟩
  · dsimp only
    set a := silhouetteA s data labels i with ha
    have hann : 0 ≤ a := silhouetteA_nonneg s data labels i hs
    have hbnn : 0 ≤ bv := silhouetteB_nonneg s data labels i hs bv hb
    by_cases hm : max a bv = 0
    · rw [if_pos hm]
      exact ⟨by norm_num, by norm_num⟩
    · rw [if_neg hm]
      have hmpos : 0 < max a bv :=
        lt_of_le_of_ne (le_max_of_le_left hann) (Ne.symm hm)
      constructor
      · rw [le_div_iff hmpos]
        have h1 : a ≤ max a bv := le_max_left _ _
        linarith
      · rw [div_le_one hmpos]
        have h1 : bv ≤ max a bv := le_max_right _ _
        linarith

theorem foldl_bind_none {g : Nat → ℚ → Option ℚ} (l : List Nat) :
    l.foldl (fun acc i => acc.bind (g i)) none = none := by
  induction l with
  | nil => rfl
  | cons a t ih => simpa using ih

theorem list_sum_map_div (l : List ℚ) (s : ℚ) :
    (l.map (fun r => r / s)).sum = l.sum / s := by
  induction l with
  | nil => simp
  | cons a t ih => simp [add_div, ih]

theorem range_map_const (d : Nat) (c : ℚ) :
    (List.range d).map (fun _ => c) = List.replicate d c := by
  rw [List.eq_replicate]
  constructor
  · simp
  · intro b hb
    rw [List.mem_map] at hb
    obtain ⟨_, _, rfl⟩ := hb
    rfl

theorem euclideanDistanceSq_self (a : List ℚ) : euclideanDistanceSq a a = 0 := by
  unfold euclideanDistanceSq
  induction a with
  | nil => rfl
  | cons x t ih => simpa using ih

theorem list_map_const {α : Type _} (l : List α) (c : ℚ) :
    l.map (fun _ => c) = List.replicate l.length c := by
  induction l with
  | nil => rfl
  | cons a t ih => simp [ih, List.replicate_succ]

theorem kmAssign_nil_centroids (data : List (List ℚ)) :
    TrainRoute.kmAssign data [] (List.replicate data.length 0) =
      (List.replicate data.length 0, false) := by
  unfold TrainRoute.kmAssign
  dsimp only
  have hmap : (data.zip (List.replicate data.length 0)).map
      (fun (rc : List ℚ × Nat) => (([] : List (List ℚ)).foldl
        (fun (acc : Option ℚ × Nat × Nat) c =>
          let d := euclideanDistanceSq rc.1 c
          if oLt (some d) acc.1 then (some d, acc.2.2, acc.2.2 + 1)
          else (acc.1, acc.2.1, acc.2.2 + 1)) (none, 0, 0)).2.1) =
      List.replicate data.length 0 := by
    have hlen : (data.zip (List.replicate data.length 0)).length = data.length := by
      simp
    rw [show (fun (rc : List ℚ × Nat) => (([] : List (List ℚ)).foldl
        (fun (acc : Option ℚ × Nat × Nat) c =>
          let d := euclideanDistanceSq rc.1 c
          if oLt (some d) acc.1 then (some d, acc.2.2, acc.2.2 + 1)
          else (acc.1, acc.2.1, acc.2.2 + 1)) (none, 0, 0)).2.1) =
      (fun (_ : List ℚ × Nat) => (0 : Nat)) from rfl]
    rw [show (List.map (fun (_ : List ℚ × Nat) => (0 : Nat))
        (data.zip (List.replicate data.length 0))) =
      List.replicate (data.zip (List.replicate data.length 0)).length 0 from by
        induction (data.zip (List.replicate data.length 0)) with
        | nil => rfl
        | cons a t ih => simp [ih, List.replicate_succ]]
    rw [hlen]
  rw [hmap]
  simp

theorem kmLoop_nil_centroids (data : List (List ℚ)) (dims : Nat) :
    ∀ fuel, TrainRoute.kmLoop data dims fuel (List.replicate data.length 0) [] =
      (List.replicate data.length 0, []) := by
  intro fuel
  cases fuel with
  | zero => rfl
  | succ f =>
    show (let p := TrainRoute.kmAssign data [] (List.replicate data.length 0); _) = _
    rw [show TrainRoute.kmLoop data dims (f + 1) (List.replicate data.length 0) [] =
      (let p := TrainRoute.kmAssign data [] (List.replicate data.length 0)
       let cents2 := TrainRoute.kmUpdateCentroids data p.1 dims []
       if p.2 then TrainRoute.kmLoop data dims f p.1 cents2 else (p.1, cents2)) from rfl]
    rw [kmAssign_nil_centroids data]
    simp [TrainRoute.kmUpdateCentroids]

theorem kmInertia_nil_centroids (data2 : List (List ℚ)) (cl : List Nat)
    (h : ∃ r ∈ data2, r ≠ []) (hlen : data2.length ≤ cl.length) :
    TrainRoute.kmInertia [] (data2.zip cl) = none := by
  induction data2 generalizing cl with
  | nil =>
    obtain ⟨r, hr, _⟩ := h
    cases hr
  | cons r t ih =>
    cases cl with
    | nil => simp at hlen
    | cons c ct =>
      have hlen2 : t.length ≤ ct.length := by simpa using hlen
      obtain ⟨x, hx, hxne⟩ := h
      cases r with
      | cons y ys =>
        simp [TrainRoute.kmInertia, TrainRoute.euclidSqJS]
      | nil =>
        have hxt : x ∈ t := by
          rcases List.mem_cons.1 hx with heq | hxt
          · exact absurd heq hxne
          · exact hxt
        have hrec := ih ct ⟨x, hxt, hxne⟩ hlen2
        simp only [List.zip_cons_cons, TrainRoute.kmInertia,
          TrainRoute.euclidSqJS]
        rw [show List.zipWith Prod.mk t ct = t.zip ct from rfl, hrec]
        rfl

/-! Claim theorems. -/

/-- Claim C1 (code_bug): the claim says K-Means seeds its centroids via
K-Means++ (first uniform, later ones distance-proportional), and the
repository's own technical guide documents a K-Means++ initialiser, but
`kMeans` in `route.ts` draws every centroid uniformly at random.  With
the draw sequence `0, 0` on the data set `[[0], [1]]` both centroids
become the row `[0]`, although that row has squared distance `0` to the
already-chosen centroid while `[1]` has squared distance `1`; a
distance-proportional sampler would choose `[1]` with probability 1 and
`[0]` with probability 0. -/
theorem claim_C1_kmeans_uniform_seeding :
    TrainRoute.initCentroids [[(0 : ℚ)], [1]] 2 [0, 0] = some [[0], [0]] ∧
    euclideanDistanceSq [(0 : ℚ)] [0] = 0 ∧
    euclideanDistanceSq [(1 : ℚ)] [0] = 1 := by
  refine ⟨?_, ?_, ?_⟩ <;> with_unfolding_all decide

/-- Claim C2 (counterexample): the M-step of `gaussianMixture` does not
keep the previous parameters of a zero-responsibility component.  On
the one-point data set `[[5]]` (where the only reachable previous state
is weight `1`, mean `[5]`, covariance diagonal `[1]`) a zero
responsibility column produces weight `0`, mean `[0]` and covariance
diagonal `[1]` — the mean moves to the origin and the weight to zero
instead of being retained. -/
theorem claim_C2_counterexample :
    AdvClustering.gmmMStepComponent 1 [[(5 : ℚ)]] [0] = (0, [0], [1]) ∧
    AdvClustering.gmmMStepComponent 1 [[(5 : ℚ)]] [0] ≠ ((1 : ℚ), [(5 : ℚ)], [(1 : ℚ)]) := by
  refine ⟨?_, ?_⟩ <;> with_unfolding_all decide

/-- Claim C2 (amended): in the Gaussian Mixture M-step, a component
whose total responsibility over all points is zero does not keep its
previous parameters; it is reset to the fixed fallback values weight
`0`, mean the zero vector and covariance diagonal all `1` (`route`
lines 258-287: the guards are ternary expressions with constant
fallbacks, not retention of the previous state). -/
theorem claim_C2_amended (d : Nat) (data : List (List ℚ)) (resps : List ℚ)
    (hn : data ≠ []) (h0 : resps.sum = 0) :
    AdvClustering.gmmMStepComponent d data resps =
      (0, List.replicate d 0, List.replicate d 1) := by
  unfold AdvClustering.gmmMStepComponent
  simp only [h0, lt_irrefl, if_false, zero_div]
  rw [list_map_const, list_map_const]
  simp

/-- Claim C2 (witness): the amended statement at a concrete input. -/
theorem claim_C2_witness :
    AdvClustering.gmmMStepComponent 2 [[(1 : ℚ), 2], [3, 4]] [0, 0] =
      (0, List.replicate 2 0, List.replicate 2 1) :=
  claim_C2_amended 2 [[(1 : ℚ), 2], [3, 4]] [0, 0] (by simp) (by norm_num)

/-- Claim C3 (counterexample): `multivariateGaussian` has no
degenerate-variance guard.  At `x = [0]`, `mean = [1]`,
`covariance = [[0]]` the source divides `(0 - 1)^2` by the zero
variance entry, so the exponent is non-finite (`none`), while the
guarded kernel described by the spec (zero variance treated as `1`)
yields exponent `1`; the determinant factor degenerates to `0` as
well, so the density evaluates to `NaN`, not a finite value. -/
theorem claim_C3_counterexample :
    AdvClustering.multivariateGaussianExponent [(0 : ℚ)] [1] [[0]] = none ∧
    AdvClustering.multivariateGaussianExponentGuard [(0 : ℚ)] [1] [[0]] = 1 ∧
    AdvClustering.multivariateGaussianDet [(0 : ℚ)] [[0]] = 0 := by
  refine ⟨?_, ?_, ?_⟩ <;> with_unfolding_all decide

/-- Claim C3 (amended): the Gaussian density kernel divides by the
variance entries unguarded; whenever some diagonal covariance entry in
range of the scanned dimensions is zero, the exponent accumulator is
non-finite (`Infinity` or `NaN`, both `none` here), so the density is
not a finite number. -/
theorem claim_C3_amended (x mean : List ℚ) (cov : List (List ℚ))
    (h : ∃ i, i < x.length ∧ (cov.getD i []).getD i 0 = 0) :
    AdvClustering.multivariateGaussianExponent x mean cov = none := by
  obtain ⟨i, hi, hc⟩ := h
  unfold AdvClustering.multivariateGaussianExponent
  obtain ⟨l1, l2, hsplit⟩ := List.append_of_mem (List.mem_range.2 hi)
  rw [hsplit, List.foldl_append, List.foldl_cons]
  have hterm : AdvClustering.gaussExponentTerm (x.getD i 0) (mean.getD i 0)
      ((cov.getD i []).getD i 0) = none := by
    unfold AdvClustering.gaussExponentTerm
    rw [if_pos hc]
  rw [show ((List.foldl
      (fun acc i => acc.bind fun t =>
        Option.map (fun v => t + v)
          (AdvClustering.gaussExponentTerm (x.getD i 0) (mean.getD i 0)
            ((cov.getD i []).getD i 0)))
      (some 0) l1).bind fun t =>
        Option.map (fun v => t + v)
          (AdvClustering.gaussExponentTerm (x.getD i 0) (mean.getD i 0)
            ((cov.getD i []).getD i 0))) = none from by
    rw [hterm]
    cases List.foldl
      (fun acc i => acc.bind fun t =>
        Option.map (fun v => t + v)
          (AdvClustering.gaussExponentTerm (x.getD i 0) (mean.getD i 0)
            ((cov.getD i []).getD i 0)))
      (some 0) l1 <;> rfl]
  exact foldl_bind_none l2

/-- Claim C3 (witness): the amended statement at a concrete input with
a zero variance in the second dimension. -/
theorem claim_C3_witness :
    AdvClustering.multivariateGaussianExponent [(3 : ℚ), 4] [0, 0]
      [[1, 0], [0, 0]] = none :=
  claim_C3_amended [(3 : ℚ), 4] [0, 0] [[1, 0], [0, 0]]
    ⟨1, by norm_num, by norm_num⟩

/-- Claim C4 (counterexample): `regionQuery` of
`advanced-clustering.ts` includes the queried point itself: on
`[[0], [5]]` with `eps = 1`, the neighbourhood of point `0` is `[0]` —
the point itself, at distance `0 ≤ eps`. -/
theorem claim_C4_counterexample :
    AdvClustering.regionQuery [[(0 : ℚ)], [5]] 0 1 = [0] := by
  with_unfolding_all decide

/-- Claim C4 (amended): the two DBSCAN implementations differ.
`getNeighbors` of `route.ts` excludes the point itself, exactly as the
claim states, and equals `regionQuery` with the point filtered out; but
`regionQuery` of `advanced-clustering.ts`, which feeds the core-point
test of the library `dbscan`, always counts the point itself among its
neighbours. -/
theorem claim_C4_amended (data : List (List ℚ)) (idx : Nat) (eps : ℚ)
    (hidx : idx < data.length) (heps : 0 ≤ eps) :
    idx ∈ AdvClustering.regionQuery data idx eps ∧
    idx ∉ TrainRoute.getNeighbors data idx eps ∧
    TrainRoute.getNeighbors data idx eps =
      (AdvClustering.regionQuery data idx eps).filter
        (fun i => decide (i ≠ idx)) := by
  refine ⟨?_, ?_, ?_⟩
  · unfold AdvClustering.regionQuery
    refine List.mem_filter.2 ⟨List.mem_range.2 hidx, ?_⟩
    unfold withinEps
    rw [euclideanDistanceSq_self]
    simp only [decide_eq_true_eq]
    exact ⟨heps, sq_nonneg eps⟩
  · unfold TrainRoute.getNeighbors
    intro hmem
    have h2 := (List.mem_filter.1 hmem).2
    simp at h2
  · unfold TrainRoute.getNeighbors AdvClustering.regionQuery
    rw [List.filter_filter]

/-- Claim C4 (witness): the amended statement at a concrete input. -/
theorem claim_C4_witness :
    0 ∈ AdvClustering.regionQuery [[(0 : ℚ)], [5]] 0 1 ∧
    0 ∉ TrainRoute.getNeighbors [[(0 : ℚ)], [5]] 0 1 ∧
    TrainRoute.getNeighbors [[(0 : ℚ)], [5]] 0 1 =
      (AdvClustering.regionQuery [[(0 : ℚ)], [5]] 0 1).filter
        (fun i => decide (i ≠ 0)) :=
  claim_C4_amended [[(0 : ℚ)], [5]] 0 1 (by norm_num) (by norm_num)

/-- Claim C5 (counterexample): `kMeans` of `route.ts` does not fail with
`InvalidK` when `k` exceeds the row count: with `k = 3` on the two-row
matrix `[[0], [1]]` (draws `0, 1, 0`) it runs to completion and returns
labels `[0, 1]`, three centroids and inertia `0`. -/
theorem claim_C5_counterexample :
    TrainRoute.kMeans [[(0 : ℚ)], [1]] 3 100 [0, 1, 0] =
      some ⟨[0, 1], [[0], [1], [0]], 0⟩ := by
  with_unfolding_all decide

/-- Claim C5 (amended): `kMeans` performs no validation at all.  A
zero-row matrix crashes immediately with a `TypeError` while reading
`data[0].length` (modelled by `none`), not a reported `EmptyDataset`;
`k = 0` on a matrix with a nonempty row runs its loop and then crashes
while computing the inertia against a missing centroid, not a reported
`InvalidK`; and `k` greater than the row count is accepted and returns
a normal result. -/
theorem claim_C5_amended :
    (∀ (k maxIter : Nat) (draws : List Nat),
      TrainRoute.kMeans [] k maxIter draws = none) ∧
    (∀ (data : List (List ℚ)) (maxIter : Nat) (draws : List Nat),
      (∃ r ∈ data, r ≠ []) →
      TrainRoute.kMeans data 0 maxIter draws = none) ∧
    TrainRoute.kMeans [[(0 : ℚ)], [1]] 3 100 [0, 1, 0] =
      some ⟨[0, 1], [[0], [1], [0]], 0⟩ := by
  refine ⟨?_, ?_, ?_⟩
  · intro k maxIter draws
    rfl
  · intro data maxIter draws h
    unfold TrainRoute.kMeans
    rcases hd0 : data.get? 0 with _ | row0
    · rfl
    · dsimp only
      have hinit : TrainRoute.initCentroids data 0 draws = some [] := rfl
      rw [hinit]
      dsimp only
      rw [show TrainRoute.kmLoop data row0.length maxIter
          (List.replicate data.length 0) [] =
          (List.replicate data.length 0, []) from
        kmLoop_nil_centroids data row0.length maxIter]
      rw [kmInertia_nil_centroids data (List.replicate data.length 0) h
        (by simp)]
  · with_unfolding_all decide

/-- Claim C5 (witness): the amended statement's parts at concrete
inputs. -/
theorem claim_C5_witness :
    TrainRoute.kMeans [] 2 100 [0] = none ∧
    TrainRoute.kMeans [[(5 : ℚ)]] 0 100 [] = none :=
  ⟨claim_C5_amended.1 2 100 [0],
   claim_C5_amended.2.1 [[(5 : ℚ)]] 100 [] ⟨[5], by simp, by simp⟩⟩

/-- Claim C6 (counterexample): the silhouette implementation of
`evaluation.ts` does not define the per-point score as `0` when both
`a` and `b` are `0`.  On the duplicate-point matrix `[[0], [0]]` with
labels `[0, 1]` every point has `a = 0` (singleton cluster) and `b = 0`
(the other cluster sits at distance `0`), the division `0 / 0` yields
`NaN`, and the returned metric value is `NaN` (`none`) — neither `0`
per point nor an overall score in `[-1, 1]`.  (Every distance taken at
this input is of the square sum `0`, where the stand-in `qAbs` agrees
with the real square root.) -/
theorem claim_C6_counterexample :
    (EvalLib.calculateSilhouetteScore qAbs [[(0 : ℚ)], [0]] [0, 1]).value =
      none := by
  with_unfolding_all decide

/-- Claim C6 (amended): for the `route.ts` silhouette implementation
(whose `isNaN` guard maps the `a = b = 0` case, and the degenerate
`b = Infinity` case, to `0`) the claim holds: the overall score is the
mean of the per-point scores, each per-point score is
`(b - a) / max a b` with the zero guard, and the overall score lies in
`[-1, 1]`.  The hypotheses are the claim's: a square-root kernel with
nonnegative values, labels of the same length as the matrix, and at
least two distinct labels. -/
theorem claim_C6_amended (s : ℚ → ℚ) (data : List (List ℚ))
    (labels : List ℤ) (hs : ∀ q, 0 ≤ s q)
    (hl : labels.length = data.length)
    (hk : 2 ≤ (uniqueLabels labels).length) :
    TrainRoute.calculateSilhouetteScore s data labels =
      ((List.range data.length).map
        (TrainRoute.silhouettePoint s data labels)).sum / data.length ∧
    (∀ i bv, silhouetteB s data labels i = some bv →
      TrainRoute.silhouettePoint s data labels i =
        if max (silhouetteA s data labels i) bv = 0 then 0
        else (bv - silhouetteA s data labels i) /
          max (silhouetteA s data labels i) bv) ∧
    -1 ≤ TrainRoute.calculateSilhouetteScore s data labels ∧
    TrainRoute.calculateSilhouetteScore s data labels ≤ 1 := by
  have hn : 0 < data.length := by
    rcases data with _ | ⟨r, t⟩
    · rw [List.length_nil] at hl
      have hnil : labels = [] := List.eq_nil_of_length_eq_zero hl
      rw [hnil] at hk
      simp [uniqueLabels] at hk
    · simp
  have hnq : 0 < (data.length : ℚ) := by exact_mod_cast hn
  have hmem : ∀ x ∈ (List.range data.length).map
      (TrainRoute.silhouettePoint s data labels), -1 ≤ x ∧ x ≤ 1 := by
    intro x hx
    rw [List.mem_map] at hx
    obtain ⟨i, _, rfl⟩ := hx
    exact silhouettePoint_bounds s data labels i hs
  have hlow := neg_length_le_list_sum
    ((List.range data.length).map (TrainRoute.silhouettePoint s data labels))
    (fun x hx => (hmem x hx).1)
  have hhigh := list_sum_le_length
    ((List.range data.length).map (TrainRoute.silhouettePoint s data labels))
    (fun x hx => (hmem x hx).2)
  rw [List.length_map, List.length_range] at hlow hhigh
  refine ⟨rfl, ?_, ?_, ?_⟩
  · intro i bv hb
    unfold TrainRoute.silhouettePoint
    rw [hb]
  · unfold TrainRoute.calculateSilhouetteScore
    rw [le_div_iff₀ hnq]
    linarith
  · unfold TrainRoute.calculateSilhouetteScore
    rw [div_le_one₀ hnq]
    linarith

/-- Claim C6 (witness): the bounds of the amended statement at a
concrete input (two points, two labels; all square sums at this input
are `0` or `1`, where `qAbs` agrees with the real square root). -/
theorem claim_C6_witness :
    -1 ≤ TrainRoute.calculateSilhouetteScore qAbs [[(0 : ℚ)], [1]] [0, 1] ∧
    TrainRoute.calculateSilhouetteScore qAbs [[(0 : ℚ)], [1]] [0, 1] ≤ 1 :=
  ⟨(claim_C6_amended qAbs [[(0 : ℚ)], [1]] [0, 1] (fun q => abs_nonneg q) rfl
      (by decide)).2.2.1,
   (claim_C6_amended qAbs [[(0 : ℚ)], [1]] [0, 1] (fun q => abs_nonneg q) rfl
      (by decide)).2.2.2⟩

/-- Claim C7 (code_bug): OPTICS violates the label-length invariant.
Its seed-queue pop does not re-check the `processed` flag, so a point
whose reachability was improved twice before being processed enters the
visit order twice; the label array is allocated per visit-order entry.
On the three-row matrix `[[0], [10], [11]]` with `minPts = 2` and
unbounded `maxEps`, point `2` is visited twice and `optics` returns
four labels for three rows. -/
theorem claim_C7_optics_label_length :
    (AdvClustering.optics [[(0 : ℚ)], [10], [11]] 2 none).length = 4 ∧
    ([[(0 : ℚ)], [10], [11]] : List (List ℚ)).length = 3 := by
  refine ⟨?_, ?_⟩ <;> with_unfolding_all decide

/-- Claim C8 (confirmed): for every matrix of `n` rows and every `k`
with `1 ≤ k ≤ n`, `hierarchicalClustering` succeeds and its linkage
record has exactly `n - k` merge entries: each loop iteration of the
source merges exactly two clusters into one and appends exactly one
linkage entry, and the loop stops at `k` clusters. -/
theorem claim_C8_linkage_length (data : List (List ℚ)) (k : Nat)
    (hk : 1 ≤ k) (hkn : k ≤ data.length) :
    (TrainRoute.hierarchicalClustering data k).isSome = true ∧
    (TrainRoute.hierarchicalClustering data k).map (fun r => r.2.length) =
      some (data.length - k) := by
  have hinit : ((List.range data.length).map (fun i => [i])).length =
      data.length := by simp
  obtain ⟨fc, flk, heq, hlen, hfc⟩ := hierLoop_spec data k hk data.length
    ((List.range data.length).map (fun i => [i])) []
    (by rw [hinit]; exact hkn) (by rw [hinit]; omega)
  rw [hinit] at hlen
  unfold TrainRoute.hierarchicalClustering
  dsimp only
  rw [heq]
  simp [hlen]

/-- Claim C8 (witness): the statement at a concrete input: three rows,
`k = 2`, one linkage entry. -/
theorem claim_C8_witness :
    (TrainRoute.hierarchicalClustering [[(0 : ℚ)], [1], [5]] 2).isSome = true ∧
    (TrainRoute.hierarchicalClustering [[(0 : ℚ)], [1], [5]] 2).map
      (fun r => r.2.length) = some 1 :=
  claim_C8_linkage_length [[(0 : ℚ)], [1], [5]] 2 (by norm_num) (by norm_num)

/-- Claim C9 (confirmed): with fewer than two distinct labels the
Silhouette evaluator of `evaluation.ts` returns the "not applicable"
sentinel — a normal record with value `0` and an explanatory
interpretation — and, being a total function of its inputs, raises no
error and performs no division. -/
theorem claim_C9_sentinel (s : ℚ → ℚ) (data : List (List ℚ))
    (labels : List ℤ) (h : (uniqueLabels labels).length ≤ 1) :
    EvalLib.calculateSilhouetteScore s data labels =
      EvalLib.silhouetteSentinel := by
  unfold EvalLib.calculateSilhouetteScore
  rw [if_pos h]

/-- Claim C9 (witness): the statement at a concrete single-cluster
input. -/
theorem claim_C9_witness :
    EvalLib.calculateSilhouetteScore qAbs [[(1 : ℚ)], [2]] [0, 0] =
      EvalLib.silhouetteSentinel :=
  claim_C9_sentinel qAbs [[(1 : ℚ)], [2]] [0, 0] (by decide)

/-- Claim C10 (confirmed): in the Gaussian Mixture E-step, a point
whose weighted density row sums to zero receives the uniform
responsibilities `1 / k`; and for `k ≥ 1` the normalised row always
sums to `1` (the division happens only when the row sum is positive,
so it never divides by zero).  The density kernel is abstract, so this
holds for the source's Gaussian in particular. -/
theorem claim_C10_estep_normalisation
    (g : List ℚ → List ℚ → List (List ℚ) → ℚ) (k : Nat)
    (weights : List ℚ) (means : List (List ℚ))
    (covs : List (List (List ℚ))) (x : List ℚ)
    (hw : weights.length = k) (hm : means.length = k)
    (hc : covs.length = k) (hk : 1 ≤ k) :
    ((AdvClustering.gmmRawRow g weights means covs x).sum = 0 →
      AdvClustering.gmmEStepRow g k weights means covs x =
        List.replicate k (1 / (k : ℚ))) ∧
    (AdvClustering.gmmEStepRow g k weights means covs x).sum = 1 := by
  have hlen : (AdvClustering.gmmRawRow g weights means covs x).length = k := by
    unfold AdvClustering.gmmRawRow
    simp [hw, hm, hc]
  have hkq : ((k : ℚ)) ≠ 0 := by
    exact_mod_cast Nat.pos_iff_ne_zero.1 hk
  by_cases hpos : 0 < (AdvClustering.gmmRawRow g weights means covs x).sum
  · constructor
    · intro h0
      rw [h0] at hpos
      exact absurd hpos (lt_irrefl 0)
    · unfold AdvClustering.gmmEStepRow
      simp only [hpos, if_true]
      rw [list_sum_map_div]
      exact div_self (ne_of_gt hpos)
  · have huni : AdvClustering.gmmEStepRow g k weights means covs x =
        List.replicate k (1 / (k : ℚ)) := by
      unfold AdvClustering.gmmEStepRow
      simp only [hpos, if_false]
      rw [list_map_const, hlen]
    refine ⟨fun _ => huni, ?_⟩
    rw [huni, List.sum_replicate, nsmul_eq_mul]
    rw [mul_one_div, div_self hkq]

/-- Claim C10 (witness): the statement at a concrete input where the
density kernel vanishes everywhere, so the row sum is zero and both
points get uniform responsibilities summing to one. -/
theorem claim_C10_witness :
    AdvClustering.gmmEStepRow (fun _ _ _ => 0) 2 [1 / 2, 1 / 2]
      [[0], [1]] [[[1]], [[1]]] [0] = [1 / 2, 1 / 2] ∧
    (AdvClustering.gmmEStepRow (fun _ _ _ => 0) 2 [1 / 2, 1 / 2]
      [[0], [1]] [[[1]], [[1]]] [0]).sum = 1 := by
  have h := claim_C10_estep_normalisation (fun _ _ _ => 0) 2 [1 / 2, 1 / 2]
    [[0], [1]] [[[1]], [[1]]] [0] rfl rfl rfl (by norm_num)
  refine ⟨?_, h.2⟩
  have h0 : (AdvClustering.gmmRawRow (fun _ _ _ => 0) [1 / 2, 1 / 2]
      [[0], [1]] [[[1]], [[1]]] [0]).sum = 0 := by
    with_unfolding_all decide
  rw [h.1 h0]
  norm_num [List.replicate]
